import Mathlib

/-!
Verification of the hex-grid range/highlight core of `src/ui/hex.js` and of
the earlier grid variant (`src/unnamed/part_000`) from the boardgame.io fork.

JavaScript functions are shallowly embedded as Lean functions:

* integer-valued JS numbers become `Int`;
* the string-keyed `colorMap` object becomes an association list
  `List (String × String)` whose keys are built with the same decimal
  rendering as the JS template string `` `${x},${y},${z}` `` (`Int.repr`);
* React props and state become explicit records, and the event handlers
  become functions from (props, state, event coordinate) to the new state
  plus the optional external-callback invocation;
* the real-valued vertex geometry of `Hex` is embedded over `ℝ`, with
  JavaScript's `toFixed(3)` modelled as rounding to 3 decimal places
  (idealized real arithmetic in place of IEEE doubles);
* the buggy `componentWillMount` call, which feeds the React *element*
  (whose `x`, `y`, `z` are `undefined`) into the coordinate arithmetic,
  is modelled with an explicit JS-value type tracking `undefined`/`NaN`.
-/

namespace HexUI

/-- A cube coordinate record `{x, y, z}` as passed around by `hex.js`. -/
structure Coord where
  x : Int
  y : Int
  z : Int
deriving DecidableEq, Repr

/-- Integers produced by the JS loop `for (let v = lo; v < hi; v++)`:
the half-open interval `[lo, hi)`, in increasing order. -/
def intRange (lo hi : Int) : List Int :=
  (List.range (hi - lo).toNat).map (fun (i : Nat) => lo + (i : Int))

/-- Hex distance between two cube coordinates, as defined in the spec
(§4.1) and repeated verbatim in the claims:
`hexDistance(a,b) = (|a.x-b.x| + |a.y-b.y| + |a.z-b.z|) / 2`. -/
def hexDistance (a b : Coord) : Nat :=
  ((a.x - b.x).natAbs + (a.y - b.y).natAbs + (a.z - b.z).natAbs) / 2

/-- Loop part of `HexGrid._getNearGrids(args, range)` (src/ui/hex.js,
lines 103–116): the two nested loops over `dx ∈ [-range, range]` and
`dy ∈ [max(-range, -dx-range), min(range, -dx+range)]`, emitting
`{x: x+dx, y: y+dy, z: -x-y-dx-dy}` into `results`. -/
def nearLoop (args : Coord) (range : Int) : List Coord :=
  (intRange (-range) (range + 1)).flatMap (fun dx =>
    (intRange (max (-range) (-dx - range)) (min range (-dx + range) + 1)).map
      (fun dy => ⟨args.x + dx, args.y + dy, -args.x - args.y - dx - dy⟩))

/-- Translation of `HexGrid._getNearGrids(args, range)` (src/ui/hex.js,
lines 103–116): the loop-emitted coordinates followed by the trailing
`results.push(args)`. -/
def getNearGrids (args : Coord) (range : Int) : List Coord :=
  nearLoop args range ++ [args]

/-- Translation of the JS template string `` `${x},${y},${z}` `` used as the
`colorMap` key for a coordinate; integer-valued JS numbers render in
decimal, which is exactly `Int.repr`. -/
def hexKey (c : Coord) : String :=
  Int.repr c.x ++ "," ++ Int.repr c.y ++ "," ++ Int.repr c.z

/-- Translation of `HexGrid.getLimitNeighbors(center, range)` (src/ui/hex.js,
lines 129–140): builds a fresh `colorMap` assigning the highlight color
`'#22ff66'` to the key of every grid returned by `_getNearGrids`.
(The JS guard `if (center)` is always taken in our setting, since a
coordinate object is truthy.) -/
def getLimitNeighbors (center : Coord) (range : Int) : List (String × String) :=
  (getNearGrids center range).map (fun grid => (hexKey grid, "#22ff66"))

/-- Membership test of the JS `in` operator on the `colorMap` object: the
key appears among the assigned keys. -/
def containsKey (m : List (String × String)) (key : String) : Bool :=
  m.any (fun kv => kv.1 == key)

/-- Translation of `HexGrid.inRange(target, center, range)` (src/ui/hex.js,
lines 142–149): stringify `target` and test it with `in` against the
`colorMap` returned by `getLimitNeighbors(center, range)`. -/
def inRange (target center : Coord) (range : Int) : Bool :=
  containsKey (getLimitNeighbors center range) (hexKey target)

/-- The props of `HexGrid` relevant to the interaction handlers:
`range`, the clicked-token position `this.props.children.props`
(a single `Token` child with cube coordinates), and whether the three
optional external callbacks are configured. -/
structure GridProps where
  range : Int
  tokenPos : Coord
  hasOnClick : Bool
  hasOnMouseOver : Bool
  hasOnMouseOut : Bool
deriving DecidableEq, Repr

/-- Result of running one interaction handler: the `colorMap` component of
`this.state` afterwards, and the coordinate passed to the external
callback (`none` when the callback is not invoked). -/
structure HandlerResult where
  colorMap : List (String × String)
  callback : Option Coord
deriving DecidableEq, Repr

/-- Translation of `HexGrid.onClick` (src/ui/hex.js, lines 154–164):
if an external `onClick` prop exists, test `inRange(args, tokens.props,
this.props.range)` where `tokens = this.props.children`; on success,
replace `state.colorMap` by `getLimitNeighbors(args, range)` and invoke
the external callback with `args`; otherwise do nothing. -/
def onClick (p : GridProps) (st : List (String × String)) (args : Coord) :
    HandlerResult :=
  if p.hasOnClick then
    if inRange args p.tokenPos p.range then
      { colorMap := getLimitNeighbors args p.range, callback := some args }
    else
      { colorMap := st, callback := none }
  else
    { colorMap := st, callback := none }

/-- Translation of `HexGrid.onMouseOver` (src/ui/hex.js, lines 166–170):
forward `args` to the external callback when configured; the state is
never touched. -/
def onMouseOver (p : GridProps) (st : List (String × String)) (args : Coord) :
    HandlerResult :=
  { colorMap := st, callback := if p.hasOnMouseOver then some args else none }

/-- Translation of `HexGrid.onMouseOut` (src/ui/hex.js, lines 172–176):
forward `args` to the external callback when configured; the state is
never touched. -/
def onMouseOut (p : GridProps) (st : List (String × String)) (args : Coord) :
    HandlerResult :=
  { colorMap := st, callback := if p.hasOnMouseOut then some args else none }

/-- Translation of `HexGrid._getNearGrids(args)` of the earlier grid
variant (src/unnamed/part_000, lines 90–96): the fixed six-element
neighbor list. -/
def getNearGrids6 (args : Coord) : List Coord :=
  [⟨args.x - 1, args.y, args.z + 1⟩, ⟨args.x - 1, args.y + 1, args.z⟩,
   ⟨args.x, args.y - 1, args.z + 1⟩, ⟨args.x + 1, args.y - 1, args.z⟩,
   ⟨args.x, args.y + 1, args.z - 1⟩, ⟨args.x + 1, args.y, args.z - 1⟩]

/-- A JavaScript primitive value as it flows through the coordinate
arithmetic of `_getNearGrids`: an integer-valued number, `NaN`, or
`undefined`.  Needed to evaluate `componentWillMount`, which passes the
React element itself (whose `x`, `y`, `z` properties are `undefined`)
where a coordinate record was expected. -/
inductive JSVal where
  | num : Int → JSVal
  | nan : JSVal
  | undef : JSVal
deriving DecidableEq, Repr

/-- JS addition on such values: `undefined`/`NaN` operands give `NaN`. -/
def JSVal.add : JSVal → JSVal → JSVal
  | .num a, .num b => .num (a + b)
  | _, _ => .nan

/-- JS subtraction on such values: `undefined`/`NaN` operands give `NaN`. -/
def JSVal.sub : JSVal → JSVal → JSVal
  | .num a, .num b => .num (a - b)
  | _, _ => .nan

/-- JS unary minus on such values: `-undefined` and `-NaN` are `NaN`. -/
def JSVal.neg : JSVal → JSVal
  | .num a => .num (-a)
  | _ => .nan

/-- How a JS template string renders such a value. -/
def JSVal.render : JSVal → String
  | .num a => Int.repr a
  | .nan => "NaN"
  | .undef => "undefined"

/-- A coordinate-shaped object whose fields are arbitrary JS values. -/
structure JSCoord where
  x : JSVal
  y : JSVal
  z : JSVal
deriving DecidableEq, Repr

/-- Translation of `HexGrid._getNearGrids(args, range)` at the JS-value
level, for evaluating it on an argument whose `x`, `y`, `z` are
`undefined`.  `range` is a genuine number prop, so the loop itself runs
exactly as in `getNearGrids`; only the coordinate arithmetic
(`x + dx`, `y + dy`, `-x - y - dx - dy`) happens on JS values. -/
def jsGetNearGrids (args : JSCoord) (range : Int) : List JSCoord :=
  ((intRange (-range) (range + 1)).flatMap (fun dx =>
    (intRange (max (-range) (-dx - range)) (min range (-dx + range) + 1)).map
      (fun dy => ⟨args.x.add (.num dx), args.y.add (.num dy),
                  ((args.x.neg.sub args.y).sub (.num dx)).sub (.num dy)⟩)))
  ++ [args]

/-- The colorMap key a JS-level coordinate object renders to. -/
def jsKey (c : JSCoord) : String :=
  c.x.render ++ "," ++ c.y.render ++ "," ++ c.z.render

/-- Translation of `getLimitNeighbors` at the JS-value level. -/
def jsGetLimitNeighbors (center : JSCoord) (range : Int) :
    List (String × String) :=
  (jsGetNearGrids center range).map (fun grid => (jsKey grid, "#22ff66"))

/-- Translation of the state computed by `HexGrid.componentWillMount`
(src/ui/hex.js, lines 122–127): it calls
`this.getLimitNeighbors(tokens, this.props.range)` with
`tokens = this.props.children` — the React *element*, not its `props` —
so the destructured `x`, `y`, `z` are all `undefined`. -/
def componentWillMountColorMap (range : Int) : List (String × String) :=
  jsGetLimitNeighbors ⟨.undef, .undef, .undef⟩ range

/-- Rounding of a real to 3 decimal places: the idealized-real model of
JavaScript's `toFixed(3)` (round to nearest, ties away from zero toward
+∞, which on the values concerned matches `round`). -/
noncomputable def jsToFixed3 (v : ℝ) : ℝ :=
  (round (1000 * v) : ℤ) / 1000

/-- Translation of the getter `Hex.height` (src/ui/hex.js, lines 248–250):
`(Math.sqrt(3) / 2 * this.width).toFixed(3)` with `width = size * 2`.
The resulting string is coerced back to a number when used in
arithmetic; in the idealized real model that coercion is the identity on
the rounded value. -/
noncomputable def hexHeight (size : ℝ) : ℝ :=
  jsToFixed3 (Real.sqrt 3 / 2 * (size * 2))

/-- Translation of the getter `Hex.points` (src/ui/hex.js, lines 266–301):
the six vertex offsets `a b c d e f`, in source order, as coordinate
pairs (the JS code renders them into an SVG points string). -/
noncomputable def hexPoints (size : ℝ) : List (ℝ × ℝ) :=
  [(-size, 0), (-size / 2, hexHeight size / 2), (size / 2, hexHeight size / 2),
   (size, 0), (size / 2, -(hexHeight size / 2)), (-size / 2, -(hexHeight size / 2))]

theorem mem_intRange {lo hi a : Int} : a ∈ intRange lo hi ↔ lo ≤ a ∧ a < hi := by
  simp only [intRange, List.mem_map, List.mem_range]
  constructor
  · rintro ⟨i, hi', rfl⟩
    omega
  · intro h
    exact ⟨(a - lo).toNat, by omega, by omega⟩

theorem intRange_nodup (lo hi : Int) : (intRange lo hi).Nodup :=
  List.Nodup.map (fun i j h => by omega) (List.nodup_range _)

theorem intRange_length (lo hi : Int) : (intRange lo hi).length = (hi - lo).toNat := by
  simp [intRange]

/-- Membership characterization of the list produced by `_getNearGrids`:
for a valid center and a valid candidate coordinate, it contains exactly
the coordinates at hex distance at most `range` from the center. -/
theorem mem_getNearGrids {c p : Coord} {r : Int} (hc : c.x + c.y + c.z = 0)
    (hp : p.x + p.y + p.z = 0) (hr : 0 ≤ r) :
    p ∈ getNearGrids c r ↔ (hexDistance c p : Int) ≤ r := by
  obtain ⟨cx, cy, cz⟩ := c
  obtain ⟨px, py, pz⟩ := p
  simp only at hc hp
  simp only [getNearGrids, nearLoop, hexDistance, List.mem_append, List.mem_flatMap,
    List.mem_map, List.mem_singleton, mem_intRange, Coord.mk.injEq]
  constructor
  · rintro (⟨dx, ⟨h1, h2⟩, dy, ⟨h3, h4⟩, hx, hy, hz⟩ | ⟨hx, hy, hz⟩) <;> omega
  · intro h
    exact Or.inl ⟨px - cx, ⟨by omega, by omega⟩, py - cy, ⟨by omega, by omega⟩,
      by omega, by omega, by omega⟩

/-- Decimal digit characters of a natural number, most significant digit
first; reference form of what `Nat.toDigitsCore` computes. -/
def digitChars (n : Nat) : List Char :=
  if _h : n < 10 then [Nat.digitChar n]
  else digitChars (n / 10) ++ [Nat.digitChar (n % 10)]
decreasing_by exact Nat.div_lt_self (by omega) (by omega)

theorem digitChars_lt {n : Nat} (h : n < 10) : digitChars n = [Nat.digitChar n] := by
  rw [digitChars, dif_pos h]

theorem digitChars_ge {n : Nat} (h : ¬ n < 10) :
    digitChars n = digitChars (n / 10) ++ [Nat.digitChar (n % 10)] := by
  rw [digitChars]
  rw [dif_neg h]

theorem digitChars_ne_nil (n : Nat) : digitChars n ≠ [] := by
  rw [digitChars]
  split <;> simp

theorem toDigitsCore_acc (b : Nat) : ∀ (fuel n : Nat) (l : List Char),
    Nat.toDigitsCore b fuel n l = Nat.toDigitsCore b fuel n [] ++ l := by
  intro fuel
  induction fuel with
  | zero => intro n l; simp [Nat.toDigitsCore]
  | succ f ih =>
    intro n l
    simp only [Nat.toDigitsCore]
    split
    · simp
    · rw [ih (n / b) (Nat.digitChar (n % b) :: l), ih (n / b) [Nat.digitChar (n % b)],
        List.append_assoc, List.singleton_append]

theorem toDigitsCore_eq_digitChars : ∀ (fuel n : Nat), 0 < fuel → n < 10 ^ fuel →
    Nat.toDigitsCore 10 fuel n [] = digitChars n := by
  intro fuel
  induction fuel with
  | zero => omega
  | succ f ih =>
    intro n _ hlt
    simp only [Nat.toDigitsCore]
    split
    · next h0 =>
      have hn : n < 10 := by omega
      rw [digitChars_lt hn, Nat.mod_eq_of_lt hn]
    · next h0 =>
      have hn : ¬ n < 10 := by omega
      have hf : 0 < f := by
        rcases Nat.eq_zero_or_pos f with rfl | hf
        · simp at hlt; omega
        · exact hf
      have hdiv : n / 10 < 10 ^ f := by
        rw [Nat.div_lt_iff_lt_mul (by omega)]
        calc n < 10 ^ (f + 1) := hlt
        _ = 10 ^ f * 10 := by rw [Nat.pow_succ]
      rw [toDigitsCore_acc, ih (n / 10) hf hdiv, digitChars_ge hn]

theorem natRepr_eq_digitChars (n : Nat) : Nat.repr n = (digitChars n).asString := by
  have h : n < 10 ^ (n + 1) :=
    lt_of_lt_of_le (Nat.lt_pow_self (by omega) n) (Nat.pow_le_pow_right (by omega) (by omega))
  rw [Nat.repr, Nat.toDigits, toDigitsCore_eq_digitChars (n + 1) n (by omega) h]

theorem digitChar_mem_digits :
    ∀ a : Fin 10, Nat.digitChar a.val ∈ ['0', '1', '2', '3', '4', '5', '6', '7', '8', '9'] := by
  decide

theorem digitChar_inj10 :
    ∀ a b : Fin 10, Nat.digitChar a.val = Nat.digitChar b.val → a = b := by
  decide

theorem digitChars_subset :
    ∀ (n : Nat), ∀ c ∈ digitChars n,
      c ∈ ['0', '1', '2', '3', '4', '5', '6', '7', '8', '9'] := by
  intro n
  induction n using Nat.strong_induction_on with
  | _ n ih =>
    by_cases h : n < 10
    · rw [digitChars_lt h]
      intro c hc
      rw [List.mem_singleton] at hc
      subst hc
      exact digitChar_mem_digits ⟨n, h⟩
    · rw [digitChars_ge h]
      intro c hc
      rw [List.mem_append] at hc
      rcases hc with hc | hc
      · exact ih (n / 10) (Nat.div_lt_self (by omega) (by omega)) c hc
      · rw [List.mem_singleton] at hc
        subst hc
        exact digitChar_mem_digits ⟨n % 10, Nat.mod_lt _ (by omega)⟩

theorem digitChars_inj : ∀ (m n : Nat), digitChars m = digitChars n → m = n := by
  intro m
  induction m using Nat.strong_induction_on with
  | _ m ih =>
    intro n h
    by_cases hm : m < 10 <;> by_cases hn : n < 10
    · rw [digitChars_lt hm, digitChars_lt hn, List.cons.injEq] at h
      have := digitChar_inj10 ⟨m, hm⟩ ⟨n, hn⟩ h.1
      exact congrArg Fin.val this
    · exfalso
      rw [digitChars_lt hm, digitChars_ge hn] at h
      have hlen := congrArg List.length h
      simp only [List.length_singleton, List.length_append] at hlen
      have : digitChars (n / 10) = [] := List.length_eq_zero.mp (by omega)
      exact digitChars_ne_nil _ this
    · exfalso
      rw [digitChars_ge hm, digitChars_lt hn] at h
      have hlen := congrArg List.length h
      simp only [List.length_singleton, List.length_append] at hlen
      have : digitChars (m / 10) = [] := List.length_eq_zero.mp (by omega)
      exact digitChars_ne_nil _ this
    · rw [digitChars_ge hm, digitChars_ge hn] at h
      have hsplit := List.append_inj' h (by simp)
      have h1 : m / 10 = n / 10 :=
        ih (m / 10) (Nat.div_lt_self (by omega) (by omega)) (n / 10) hsplit.1
      have h2 : m % 10 = n % 10 := by
        have := digitChar_inj10 ⟨m % 10, Nat.mod_lt _ (by omega)⟩
          ⟨n % 10, Nat.mod_lt _ (by omega)⟩ (by simpa using hsplit.2)
        exact congrArg Fin.val this
      omega

theorem natRepr_inj {m n : Nat} (h : Nat.repr m = Nat.repr n) : m = n := by
  rw [natRepr_eq_digitChars, natRepr_eq_digitChars] at h
  exact digitChars_inj _ _ (congrArg String.data h)

theorem string_data_append (s t : String) : (s ++ t).data = s.data ++ t.data := by
  cases s
  cases t
  rfl

theorem natRepr_data (n : Nat) : (Nat.repr n).data = digitChars n := by
  rw [natRepr_eq_digitChars]
  rfl

theorem intRepr_data_cases (x : Int) :
    (Int.repr x).data = digitChars x.toNat ∨
      (Int.repr x).data = '-' :: digitChars (-x).toNat := by
  cases x with
  | ofNat m => exact Or.inl (by rw [Int.repr, natRepr_data]; rfl)
  | negSucc m =>
    refine Or.inr ?_
    rw [Int.repr, string_data_append, natRepr_data]
    rfl

theorem intRepr_inj {a b : Int} (h : Int.repr a = Int.repr b) : a = b := by
  have hdata := congrArg String.data h
  cases a with
  | ofNat m =>
    cases b with
    | ofNat n =>
      rw [Int.repr, Int.repr] at h
      exact congrArg Int.ofNat (natRepr_inj h)
    | negSucc n =>
      exfalso
      rw [Int.repr, Int.repr, natRepr_data, string_data_append, natRepr_data] at hdata
      have : '-' ∈ digitChars m := by
        rw [hdata]
        simp [String.data]
      have := digitChars_subset m _ this
      simp at this
  | negSucc m =>
    cases b with
    | ofNat n =>
      exfalso
      rw [Int.repr, Int.repr, natRepr_data, string_data_append, natRepr_data] at hdata
      have : '-' ∈ digitChars n := by
        rw [← hdata]
        simp [String.data]
      have := digitChars_subset n _ this
      simp at this
    | negSucc n =>
      rw [Int.repr, Int.repr, string_data_append, string_data_append,
        natRepr_data, natRepr_data] at hdata
      have : digitChars (m + 1) = digitChars (n + 1) := by
        have hh : ('-' : Char) :: digitChars (m + 1) = '-' :: digitChars (n + 1) := by
          simpa [String.data] using hdata
        exact (List.cons.injEq _ _ _ _ ▸ hh).2
      have hmn := digitChars_inj _ _ this
      exact congrArg Int.negSucc (by omega)

theorem intRepr_no_comma (x : Int) : ',' ∉ (Int.repr x).data := by
  intro hmem
  rcases intRepr_data_cases x with hd | hd
  · rw [hd] at hmem
    have := digitChars_subset _ _ hmem
    simp at this
  · rw [hd] at hmem
    rcases List.mem_cons.mp hmem with h | h
    · simp at h
    · have := digitChars_subset _ _ h
      simp at this

theorem append_comma_inj : ∀ (l₁ m₁ r s : List Char), ',' ∉ l₁ → ',' ∉ m₁ →
    l₁ ++ ',' :: r = m₁ ++ ',' :: s → l₁ = m₁ ∧ r = s := by
  intro l₁
  induction l₁ with
  | nil =>
    intro m₁ r s _ h2 h
    cases m₁ with
    | nil => simpa using h
    | cons c m₁ =>
      rw [List.nil_append, List.cons_append, List.cons.injEq] at h
      exact absurd (h.1 ▸ List.mem_cons_self c m₁) h2
  | cons c l₁ ih =>
    intro m₁ r s h1 h2 h
    cases m₁ with
    | nil =>
      rw [List.nil_append, List.cons_append, List.cons.injEq] at h
      exact absurd (h.1 ▸ List.mem_cons_self c l₁) h1
    | cons d m₁ =>
      rw [List.cons_append, List.cons_append, List.cons.injEq] at h
      have := ih m₁ r s (fun hx => h1 (List.mem_cons_of_mem _ hx))
        (fun hx => h2 (List.mem_cons_of_mem _ hx)) h.2
      exact ⟨by rw [h.1, this.1], this.2⟩

theorem hexKey_data (c : Coord) :
    (hexKey c).data =
      (Int.repr c.x).data ++ ',' :: ((Int.repr c.y).data ++ ',' :: (Int.repr c.z).data) := by
  simp only [hexKey, string_data_append]
  simp [String.data]

theorem hexKey_inj {a b : Coord} (h : hexKey a = hexKey b) : a = b := by
  have hdata := congrArg String.data h
  rw [hexKey_data, hexKey_data] at hdata
  have h1 := append_comma_inj _ _ _ _ (intRepr_no_comma a.x) (intRepr_no_comma b.x) hdata
  have h2 := append_comma_inj _ _ _ _ (intRepr_no_comma a.y) (intRepr_no_comma b.y) h1.2
  have hx := intRepr_inj (String.ext h1.1)
  have hy := intRepr_inj (String.ext h2.1)
  have hz := intRepr_inj (String.ext h2.2)
  obtain ⟨ax, ay, az⟩ := a
  obtain ⟨bx, byy, bz⟩ := b
  simp only at hx hy hz
  rw [hx, hy, hz]

theorem hexKey_mem_map {p : Coord} {l : List Coord} :
    hexKey p ∈ l.map hexKey ↔ p ∈ l := by
  constructor
  · intro h
    rcases List.mem_map.mp h with ⟨q, hq, he⟩
    rwa [← hexKey_inj he]
  · exact fun h => List.mem_map_of_mem _ h

theorem containsKey_getLimitNeighbors {c p : Coord} {r : Int} :
    containsKey (getLimitNeighbors c r) (hexKey p) = true ↔ p ∈ getNearGrids c r := by
  simp only [containsKey, getLimitNeighbors, List.any_eq_true, List.mem_map]
  constructor
  · rintro ⟨kv, ⟨g, hg, rfl⟩, hbeq⟩
    simp only [beq_iff_eq] at hbeq
    rwa [← hexKey_inj hbeq]
  · intro h
    exact ⟨(hexKey p, "#22ff66"), ⟨p, h, rfl⟩, by simp⟩

/-- Membership of a stringified coordinate in the `colorMap` built by
`getLimitNeighbors` coincides with the hex-distance bound: this is the
content of `inRange`. -/
theorem inRange_iff {t c : Coord} {r : Int} (hc : c.x + c.y + c.z = 0)
    (ht : t.x + t.y + t.z = 0) (hr : 0 ≤ r) :
    inRange t c r = true ↔ (hexDistance c t : Int) ≤ r := by
  rw [inRange, containsKey_getLimitNeighbors, mem_getNearGrids hc ht hr]

theorem intRange_concat {lo hi : Int} (h : lo ≤ hi) :
    intRange lo (hi + 1) = intRange lo hi ++ [hi] := by
  have hm : (hi + 1 - lo).toNat = (hi - lo).toNat + 1 := by omega
  rw [intRange, hm, List.range_succ, List.map_append, intRange]
  have he : lo + (((hi - lo).toNat : Nat) : Int) = hi := by omega
  simp only [List.map_cons, List.map_nil]
  rw [he]

theorem intRange_cons {lo hi : Int} (h : lo ≤ hi) :
    intRange (lo - 1) hi = (lo - 1) :: intRange lo hi := by
  have hm : (hi - (lo - 1)).toNat = (hi - lo).toNat + 1 := by omega
  rw [intRange, hm, List.range_succ_eq_map, List.map_cons, List.map_map, intRange]
  congr 1
  · simp
  · refine List.map_congr_left ?_
    intro a _
    simp only [Function.comp_apply]
    omega

theorem list_sum_const_sub (a : Int) (f : Int → Int) (l : List Int) :
    (l.map (fun x => a - f x)).sum = a * (l.length : Int) - (l.map f).sum := by
  induction l with
  | nil => simp
  | cons x xs ih =>
    simp only [List.map_cons, List.sum_cons, ih, List.length_cons]
    push_cast
    ring

theorem sum_natAbs_intRange (n : Nat) :
    ((intRange (-(n : Int)) ((n : Int) + 1)).map (fun x => (x.natAbs : Int))).sum
      = (n : Int) * ((n : Int) + 1) := by
  induction n with
  | zero => decide
  | succ k ih =>
    have h1 : intRange (-((k + 1 : Nat) : Int)) (((k + 1 : Nat) : Int) + 1)
        = (-(k : Int) - 1) :: (intRange (-(k : Int)) ((k : Int) + 1) ++ [(k : Int) + 1]) := by
      have e1 : (-((k + 1 : Nat) : Int)) = (-(k : Int)) - 1 := by push_cast; ring
      have e2 : (((k + 1 : Nat) : Int) + 1) = ((k : Int) + 1) + 1 := by push_cast; ring
      rw [e1, e2, intRange_concat (by omega), intRange_cons (by omega), List.cons_append]
    rw [h1]
    simp only [List.map_cons, List.map_append, List.map_nil, List.sum_cons,
      List.sum_append, List.sum_nil, ih]
    have e3 : ((-(k : Int) - 1).natAbs : Int) = (k : Int) + 1 := by omega
    have e4 : ((((k : Int) + 1)).natAbs : Int) = (k : Int) + 1 := by omega
    rw [e3, e4]
    push_cast
    ring

theorem nearLoop_nodup (c : Coord) (r : Int) : (nearLoop c r).Nodup := by
  rw [nearLoop, List.nodup_flatMap]
  constructor
  · intro dx _
    refine List.Nodup.map ?_ (intRange_nodup _ _)
    intro d1 d2 h
    simp only [Coord.mk.injEq] at h
    omega
  · refine List.Pairwise.imp ?_ (intRange_nodup (-r) (r + 1))
    intro d1 d2 hne p hp1 hp2
    rcases List.mem_map.mp hp1 with ⟨y1, _, rfl⟩
    rcases List.mem_map.mp hp2 with ⟨y2, _, he⟩
    simp only [Coord.mk.injEq] at he
    exact hne (by omega)

theorem nearLoop_length (c : Coord) (n : Nat) :
    (((nearLoop c (n : Int)).length : Nat) : Int)
      = 3 * (n : Int) * (n : Int) + 3 * (n : Int) + 1 := by
  have h1 : (((nearLoop c (n : Int)).length : Nat) : Int)
      = ((intRange (-(n : Int)) ((n : Int) + 1)).map
          (fun dx => 2 * (n : Int) + 1 - ((dx.natAbs : Nat) : Int))).sum := by
    rw [nearLoop, List.length_flatMap, Nat.cast_list_sum, List.map_map]
    refine congrArg List.sum (List.map_congr_left ?_)
    intro dx hdx
    rw [mem_intRange] at hdx
    simp only [Function.comp_apply, List.length_map, intRange_length]
    omega
  rw [h1, list_sum_const_sub (2 * (n : Int) + 1) (fun x => ((x.natAbs : Nat) : Int)),
    sum_natAbs_intRange n, intRange_length]
  have e : ((((n : Int) + 1 - -(n : Int)).toNat : Nat) : Int) = 2 * (n : Int) + 1 := by omega
  rw [e]
  ring

theorem self_mem_nearLoop {c : Coord} {r : Int} (hc : c.x + c.y + c.z = 0)
    (hr : 0 ≤ r) : c ∈ nearLoop c r := by
  rw [nearLoop]
  refine List.mem_flatMap.mpr ⟨0, ?_, ?_⟩
  · rw [mem_intRange]
    omega
  · refine List.mem_map.mpr ⟨0, ?_, ?_⟩
    · rw [mem_intRange]
      constructor <;> omega
    · obtain ⟨x, y, z⟩ := c
      have hsum : x + y + z = 0 := hc
      simp only [Coord.mk.injEq]
      omega

theorem getNearGrids_toFinset {c : Coord} {r : Int} (hc : c.x + c.y + c.z = 0)
    (hr : 0 ≤ r) : (getNearGrids c r).toFinset = (nearLoop c r).toFinset := by
  rw [getNearGrids, List.toFinset_append]
  have h1 : ([c] : List Coord).toFinset = {c} := by simp
  rw [h1]
  exact Finset.union_eq_left.mpr
    (Finset.singleton_subset_iff.mpr (List.mem_toFinset.mpr (self_mem_nearLoop hc hr)))

/-- Claim C2: for every valid center c (x+y+z = 0), every valid cube
coordinate p and every non-negative range r, p is in the set produced by
the range query — the keys of the colorMap built from `_getNearGrids` —
if and only if `hexDistance(c, p) = (|c.x-p.x|+|c.y-p.y|+|c.z-p.z|)/2`
is at most r. -/
theorem C2_range_query_membership (c p : Coord) (r : Int)
    (hc : c.x + c.y + c.z = 0) (hp : p.x + p.y + p.z = 0) (hr : 0 ≤ r) :
    containsKey (getLimitNeighbors c r) (hexKey p) = true ↔
      (hexDistance c p : Int) ≤ r := by
  rw [containsKey_getLimitNeighbors, mem_getNearGrids hc hp hr]

theorem C2_range_query_membership_witness :
    (containsKey (getLimitNeighbors ⟨0, 0, 0⟩ 1) (hexKey ⟨1, -1, 0⟩) = true ↔
      (hexDistance ⟨0, 0, 0⟩ ⟨1, -1, 0⟩ : Int) ≤ 1) :=
  C2_range_query_membership ⟨0, 0, 0⟩ ⟨1, -1, 0⟩ 1 (by decide) (by decide) (by decide)

/-- Claim C3: for every valid center c and non-negative range r, the set
of distinct coordinates produced by the range query contains c itself and
has exactly 3r² + 3r + 1 elements. -/
theorem C3_disk_count (c : Coord) (r : Int)
    (hc : c.x + c.y + c.z = 0) (hr : 0 ≤ r) :
    c ∈ (getNearGrids c r).toFinset ∧
      (((getNearGrids c r).toFinset.card : Nat) : Int) = 3 * r * r + 3 * r + 1 := by
  obtain ⟨n, rfl⟩ := Int.eq_ofNat_of_zero_le hr
  constructor
  · refine List.mem_toFinset.mpr ?_
    rw [getNearGrids]
    exact List.mem_append_right _ (List.mem_singleton_self c)
  · rw [getNearGrids_toFinset hc hr, List.toFinset_card_of_nodup (nearLoop_nodup c _)]
    exact nearLoop_length c n

theorem C3_disk_count_witness :
    ⟨0, 0, 0⟩ ∈ (getNearGrids ⟨0, 0, 0⟩ 2).toFinset ∧
      (((getNearGrids ⟨0, 0, 0⟩ 2).toFinset.card : Nat) : Int) = 3 * 2 * 2 + 3 * 2 + 1 :=
  C3_disk_count ⟨0, 0, 0⟩ 2 (by decide) (by decide)

/-- Claim C5: for every coordinate (x, y, z) the neighbor query of the
earlier grid variant returns exactly the six coordinates
(x-1,y,z+1), (x-1,y+1,z), (x,y-1,z+1), (x+1,y-1,z), (x,y+1,z-1),
(x+1,y,z-1), in that fixed order, and each is at hex distance exactly 1
from (x, y, z). -/
theorem C5_neighbors6 (c : Coord) :
    getNearGrids6 c =
      [⟨c.x - 1, c.y, c.z + 1⟩, ⟨c.x - 1, c.y + 1, c.z⟩, ⟨c.x, c.y - 1, c.z + 1⟩,
       ⟨c.x + 1, c.y - 1, c.z⟩, ⟨c.x, c.y + 1, c.z - 1⟩, ⟨c.x + 1, c.y, c.z - 1⟩] ∧
      ∀ p ∈ getNearGrids6 c, hexDistance c p = 1 := by
  refine ⟨rfl, ?_⟩
  intro p hp
  obtain ⟨x, y, z⟩ := c
  simp only [getNearGrids6, List.mem_cons, List.not_mem_nil, or_false] at hp
  rcases hp with rfl | rfl | rfl | rfl | rfl | rfl <;> (simp only [hexDistance]; omega)

/-- Claim C9: for every valid center c and non-negative range r, every
coordinate returned by the range query and every coordinate returned by
the six-neighbor query satisfies the cube invariant x + y + z = 0. -/
theorem C9_invariant_preserved (c : Coord) (r : Int)
    (hc : c.x + c.y + c.z = 0) (_hr : 0 ≤ r) :
    (∀ p ∈ getNearGrids c r, p.x + p.y + p.z = 0) ∧
      (∀ p ∈ getNearGrids6 c, p.x + p.y + p.z = 0) := by
  constructor
  · intro p hp
    rw [getNearGrids] at hp
    rcases List.mem_append.mp hp with hp | hp
    · rw [nearLoop] at hp
      rcases List.mem_flatMap.mp hp with ⟨dx, _, hp⟩
      rcases List.mem_map.mp hp with ⟨dy, _, rfl⟩
      show c.x + dx + (c.y + dy) + (-c.x - c.y - dx - dy) = 0
      ring
    · rw [List.mem_singleton] at hp
      subst hp
      exact hc
  · intro p hp
    simp only [getNearGrids6, List.mem_cons, List.not_mem_nil, or_false] at hp
    obtain ⟨x, y, z⟩ := c
    have hsum : x + y + z = 0 := hc
    rcases hp with rfl | rfl | rfl | rfl | rfl | rfl <;> (show _ = (0 : Int); simp only; omega)

theorem C9_invariant_preserved_witness :
    (∀ p ∈ getNearGrids ⟨1, -1, 0⟩ 1, p.x + p.y + p.z = 0) ∧
      (∀ p ∈ getNearGrids6 ⟨1, -1, 0⟩, p.x + p.y + p.z = 0) :=
  C9_invariant_preserved ⟨1, -1, 0⟩ 1 (by decide) (by decide)

/-- Claim C1, counterexample: the claim says a click is accepted iff the
target is a member of the *current* highlight set.  In the code,
`onClick` validates against the disk around the token's fixed position
`tokens.props`, not against `state.colorMap`.  Concretely, with token at
(0,0,0) and range 1: a first click on (1,-1,0) is accepted and the state
becomes the disk around (1,-1,0); the cell (2,-2,0) is then a member of
the current highlight set, yet a click on it is rejected (state
unchanged, no callback). -/
theorem C1_counterexample :
    onClick ⟨1, ⟨0, 0, 0⟩, true, false, false⟩ (componentWillMountColorMap 1) ⟨1, -1, 0⟩
        = { colorMap := getLimitNeighbors ⟨1, -1, 0⟩ 1, callback := some ⟨1, -1, 0⟩ } ∧
      containsKey (getLimitNeighbors ⟨1, -1, 0⟩ 1) (hexKey ⟨2, -2, 0⟩) = true ∧
      onClick ⟨1, ⟨0, 0, 0⟩, true, false, false⟩ (getLimitNeighbors ⟨1, -1, 0⟩ 1) ⟨2, -2, 0⟩
        = { colorMap := getLimitNeighbors ⟨1, -1, 0⟩ 1, callback := none } := by
  refine ⟨?_, ?_, ?_⟩ <;> decide

/-- Claim C1, amended: when an external onClick callback is configured,
a click on a valid target is accepted (highlight recomputed as the disk
around the target, callback invoked with the target) if and only if the
target is within `range` of the grid token's fixed position — that is,
iff it belongs to the *initial* highlight set, not the current one; when
rejected, the state is unchanged and no callback is invoked. -/
theorem C1_amended (p : GridProps) (st : List (String × String)) (target : Coord)
    (hclick : p.hasOnClick = true)
    (htok : p.tokenPos.x + p.tokenPos.y + p.tokenPos.z = 0)
    (htar : target.x + target.y + target.z = 0) (hr : 0 ≤ p.range) :
    onClick p st target =
      if (hexDistance p.tokenPos target : Int) ≤ p.range then
        { colorMap := getLimitNeighbors target p.range, callback := some target }
      else { colorMap := st, callback := none } := by
  have hin := inRange_iff htok htar hr
  by_cases hd : (hexDistance p.tokenPos target : Int) ≤ p.range
  · have ht := hin.mpr hd
    simp only [onClick, hclick, ht]
    simp [hd]
  · have hf : inRange target p.tokenPos p.range = false := by
      cases hb : inRange target p.tokenPos p.range
      · rfl
      · exact absurd (hin.mp hb) hd
    simp only [onClick, hclick, hf]
    simp [hd]

theorem C1_amended_witness :
    onClick ⟨1, ⟨0, 0, 0⟩, true, false, false⟩ [] ⟨1, 0, -1⟩ =
      if (hexDistance ⟨0, 0, 0⟩ ⟨1, 0, -1⟩ : Int) ≤ 1 then
        { colorMap := getLimitNeighbors ⟨1, 0, -1⟩ 1, callback := some ⟨1, 0, -1⟩ }
      else { colorMap := [], callback := none } :=
  C1_amended ⟨1, ⟨0, 0, 0⟩, true, false, false⟩ [] ⟨1, 0, -1⟩ rfl (by decide) (by decide)
    (by decide)

/-- Claim C8: hover-start and hover-end events leave the highlight state
completely unchanged and forward the coordinate to the external hover
callback (when one is configured, which is what forwarding to "the
external collaborator's hover callback" presupposes). -/
theorem C8_hover_passthrough (p : GridProps) (st : List (String × String)) (args : Coord) :
    (onMouseOver p st args).colorMap = st ∧ (onMouseOut p st args).colorMap = st ∧
      (p.hasOnMouseOver = true → (onMouseOver p st args).callback = some args) ∧
      (p.hasOnMouseOut = true → (onMouseOut p st args).callback = some args) := by
  refine ⟨rfl, rfl, ?_, ?_⟩ <;> intro h <;> simp [onMouseOver, onMouseOut, h]

theorem C8_hover_passthrough_witness :
    (onMouseOver ⟨3, ⟨0, 0, 0⟩, true, true, true⟩ [] ⟨1, -1, 0⟩).colorMap = [] ∧
      (onMouseOver ⟨3, ⟨0, 0, 0⟩, true, true, true⟩ [] ⟨1, -1, 0⟩).callback = some ⟨1, -1, 0⟩ :=
  ⟨(C8_hover_passthrough ⟨3, ⟨0, 0, 0⟩, true, true, true⟩ [] ⟨1, -1, 0⟩).1,
    (C8_hover_passthrough ⟨3, ⟨0, 0, 0⟩, true, true, true⟩ [] ⟨1, -1, 0⟩).2.2.1 rfl⟩

/-- Claim C10: if no external onClick callback is configured, every click
— even one on a coordinate inside the current highlight set — leaves the
highlight state unchanged and invokes nothing. -/
theorem C10_no_callback_drops_clicks (p : GridProps) (st : List (String × String))
    (args : Coord) (h : p.hasOnClick = false) :
    onClick p st args = { colorMap := st, callback := none } := by
  simp [onClick, h]

theorem C10_no_callback_drops_clicks_witness :
    containsKey (getLimitNeighbors ⟨0, 0, 0⟩ 1) (hexKey ⟨1, 0, -1⟩) = true ∧
      onClick ⟨1, ⟨0, 0, 0⟩, false, false, false⟩ (getLimitNeighbors ⟨0, 0, 0⟩ 1) ⟨1, 0, -1⟩
        = { colorMap := getLimitNeighbors ⟨0, 0, 0⟩ 1, callback := none } :=
  ⟨by decide,
    C10_no_callback_drops_clicks ⟨1, ⟨0, 0, 0⟩, false, false, false⟩
      (getLimitNeighbors ⟨0, 0, 0⟩ 1) ⟨1, 0, -1⟩ rfl⟩

/-- Claim C7, counterexample: the claim says a negative range is rejected
at construction (fail fast) rather than proceeding to compute highlight
sets.  The code performs no validation anywhere: at range -1 the range
query proceeds normally (its loop body never runs) and the highlight
computation returns a colorMap containing exactly the center key. -/
theorem C7_counterexample :
    getNearGrids ⟨0, 0, 0⟩ (-1) = [⟨0, 0, 0⟩] ∧
      (getLimitNeighbors ⟨0, 0, 0⟩ (-1)).map Prod.fst = [hexKey ⟨0, 0, 0⟩] := by
  constructor <;> decide

/-- Claim C7, amended: a negative range is not rejected — no validation
exists at construction or anywhere else; instead, for every negative
range the loop of the range query never executes, so the computation
proceeds and yields exactly the clicked center (a singleton colorMap). -/
theorem C7_amended (c : Coord) (r : Int) (h : r < 0) :
    getNearGrids c r = [c] ∧ (getLimitNeighbors c r).map Prod.fst = [hexKey c] := by
  have h1 : intRange (-r) (r + 1) = [] := by
    rw [intRange]
    have h0 : (r + 1 - -r).toNat = 0 := by omega
    rw [h0]
    rfl
  constructor
  · rw [getNearGrids, nearLoop, h1]
    rfl
  · rw [getLimitNeighbors, getNearGrids, nearLoop, h1]
    rfl

theorem C7_amended_witness :
    ((-1 : Int) < 0) ∧ (getNearGrids ⟨2, -2, 0⟩ (-1) = [⟨2, -2, 0⟩] ∧
      (getLimitNeighbors ⟨2, -2, 0⟩ (-1)).map Prod.fst = [hexKey ⟨2, -2, 0⟩]) :=
  ⟨by decide, C7_amended ⟨2, -2, 0⟩ (-1) (by decide)⟩

/-- Claim C4 (code slip): `componentWillMount` is supposed to seed the
highlight state with the disk around the grid token's position, but it
passes the React element instead of its `props`, so every loop-emitted
key is "NaN,NaN,NaN" and the trailing pushed element renders as
"undefined,undefined,undefined".  At the default range 3 the resulting
colorMap holds 37 copies of the NaN key plus the undefined key, and the
actual token cell (0,0,0) is not highlighted at all. -/
theorem C4_initial_highlight_bug :
    (componentWillMountColorMap 3).map Prod.fst
        = List.replicate 37 "NaN,NaN,NaN" ++ ["undefined,undefined,undefined"] ∧
      containsKey (componentWillMountColorMap 3) (hexKey ⟨0, 0, 0⟩) = false := by
  constructor <;> decide

theorem sqrt3_gt : (1.7315 : ℝ) < Real.sqrt 3 := by
  rw [Real.lt_sqrt (by norm_num)]
  norm_num

theorem sqrt3_lt : Real.sqrt 3 < 1.7325 := by
  rw [Real.sqrt_lt' (by norm_num)]
  norm_num

theorem round_1000_sqrt3 : round ((1000 : ℝ) * Real.sqrt 3) = 1732 := by
  have h1 := sqrt3_gt
  have h2 := sqrt3_lt
  rw [round_eq, Int.floor_eq_iff]
  constructor
  · push_cast
    linarith
  · push_cast
    linarith

theorem hexHeight_one : hexHeight 1 = 1732 / 1000 := by
  rw [hexHeight, jsToFixed3]
  have h : (1000 : ℝ) * (Real.sqrt 3 / 2 * ((1 : ℝ) * 2)) = 1000 * Real.sqrt 3 := by ring
  rw [h, round_1000_sqrt3]
  norm_num

/-- Claim C6, counterexample: at size 1 the code's vertex b is
(-1/2, h/2) with h = 1.732 — the toFixed(3) rounding of √3·1 — which
differs from the claimed (-1/2, √3/2) because √3 ≠ 1.732. -/
theorem C6_counterexample :
    hexPoints 1 ≠
      [(-1, 0), (-(1 : ℝ) / 2, Real.sqrt 3 * 1 / 2), (1 / 2, Real.sqrt 3 * 1 / 2),
       (1, 0), (1 / 2, -(Real.sqrt 3 * 1 / 2)), (-(1 : ℝ) / 2, -(Real.sqrt 3 * 1 / 2))] := by
  intro h
  simp only [hexPoints, List.cons.injEq, Prod.mk.injEq] at h
  have hkey : hexHeight 1 / 2 = Real.sqrt 3 * 1 / 2 := h.2.1.2
  have h3 : Real.sqrt 3 = 1732 / 1000 := by
    rw [hexHeight_one] at hkey
    linarith
  have h4 := Real.sq_sqrt (by norm_num : (0 : ℝ) ≤ 3)
  rw [h3] at h4
  norm_num at h4

/-- Claim C6, amended: for every positive size the vertex computation
returns the six offsets in the fixed order (-s,0), (-s/2,h/2), (s/2,h/2),
(s,0), (s/2,-h/2), (-s/2,-h/2), where h is √3·s rounded to three decimal
places (toFixed(3)) rather than √3·s exactly. -/
theorem C6_amended (size : ℝ) (_hpos : 0 < size) :
    hexPoints size =
      [(-size, 0), (-size / 2, hexHeight size / 2), (size / 2, hexHeight size / 2),
       (size, 0), (size / 2, -(hexHeight size / 2)), (-size / 2, -(hexHeight size / 2))] ∧
      hexHeight size = jsToFixed3 (Real.sqrt 3 * size) := by
  refine ⟨rfl, ?_⟩
  rw [hexHeight]
  congr 1
  ring

theorem C6_amended_witness :
    ((0 : ℝ) < 1) ∧
      (hexPoints 1 =
        [(-1, 0), (-(1 : ℝ) / 2, hexHeight 1 / 2), ((1 : ℝ) / 2, hexHeight 1 / 2),
         (1, 0), ((1 : ℝ) / 2, -(hexHeight 1 / 2)), (-(1 : ℝ) / 2, -(hexHeight 1 / 2))] ∧
        hexHeight 1 = jsToFixed3 (Real.sqrt 3 * 1)) :=
  ⟨by norm_num, C6_amended 1 (by norm_num)⟩

end HexUI
